import Mathlib

/-!
# JSON-RPC relay (`main.go`): shallow embedding and verified properties

The relay keeps two pieces of process-wide state, the balance cache and the
ledger client.  Both are made explicit here: every function of `main.go` that
touches them takes a `World` and returns the new one.  The `World` also
carries a trace of the effects performed (cache operations, ledger calls,
signing), so that statements of the form "no ledger call is made" can be
expressed.

Imported libraries are handled as follows.

* `hashicorp/golang-lru` (`lru.New`, `Cache.Get`, `Cache.Add`) is modelled as
  a recency-ordered association list, see `Cache`.
* `go-ethereum/common.HexToAddress` is modelled byte by byte, see
  `HexToAddress`.
* The ABI codec, the ledger client and the signer are fallible functions
  collected in `Deps`.
-/

namespace JsonRpc

/-! ## Byte strings and addresses -/

/-- A Go `[]byte`; every element is below 256. -/
abbrev Bytes := List Nat

/-- A `common.Address`: 20 bytes. -/
abbrev Address := List Nat

/-- The UTF-8 encoding of one character, as Go stores it in a `string`. -/
def utf8Bytes (c : Char) : Bytes :=
  let n := c.toNat
  if n < 0x80 then [n]
  else if n < 0x800 then [0xC0 + n / 64, 0x80 + n % 64]
  else if n < 0x10000 then [0xE0 + n / 4096, 0x80 + n / 64 % 64, 0x80 + n % 64]
  else [0xF0 + n / 262144, 0x80 + n / 4096 % 64, 0x80 + n / 64 % 64, 0x80 + n % 64]

/-- The bytes of a Go `string`. -/
def goBytes (s : String) : Bytes :=
  s.data.flatMap utf8Bytes

/-- The table `reverseHexTable` of `encoding/hex`: the value of a hex digit,
`none` for every other byte. -/
def fromHexChar (c : Nat) : Option Nat :=
  if 48 ≤ c ∧ c ≤ 57 then some (c - 48)
  else if 97 ≤ c ∧ c ≤ 102 then some (c - 97 + 10)
  else if 65 ≤ c ∧ c ≤ 70 then some (c - 65 + 10)
  else none

/-- Go `common.Hex2Bytes`: `hex.DecodeString` with the error dropped, which
leaves the bytes decoded before the first invalid digit. -/
def Hex2Bytes : Bytes → Bytes
  | p :: q :: rest =>
    match fromHexChar p, fromHexChar q with
    | some a, some b => (a * 16 + b) :: Hex2Bytes rest
    | _, _ => []
  | _ => []

/-- Go `has0xPrefix`: the string starts with `0x` or `0X`. -/
def has0xPrefix : Bytes → Bool
  | 48 :: 120 :: _ => true
  | 48 :: 88 :: _ => true
  | _ => false

/-- Go `common.FromHex`: strip the `0x`, pad an odd-length string with a
leading `0`, then decode. -/
def FromHex (s : Bytes) : Bytes :=
  let s := if has0xPrefix s then s.drop 2 else s
  let s := if s.length % 2 = 1 then 48 :: s else s
  Hex2Bytes s

/-- Go `common.BytesToAddress`: keep the last 20 bytes, pad on the left with
zeroes. -/
def BytesToAddress (b : Bytes) : Address :=
  let b := if b.length > 20 then b.drop (b.length - 20) else b
  List.replicate (20 - b.length) 0 ++ b

/-- Go `common.HexToAddress`. -/
def HexToAddress (s : String) : Address :=
  BytesToAddress (FromHex (goBytes s))

/-- The contract address `nftAddress` of `main.go`. -/
def nftAddress : Address :=
  HexToAddress "0x0e075058f9d07a328c5b84ad1e1e18d159fee1e8"

/-! ## The balance cache (`lru.Cache`) -/

/-- The `lru.Cache` of `hashicorp/golang-lru`, which `main.go` imports; the
model follows the `simplelru.LRU` behind it.  `items` is its `evictList`, most
recently used entry first (the library keeps a map beside the list for the
lookup; here the list is searched).  `size` is the capacity given to
`lru.New`. -/
structure Cache where
  size : Nat
  items : List (String × Int)
deriving DecidableEq, Repr

/-- Go `lru.New(size)`: fails unless the size is positive. -/
def lruNew (size : Int) : Except String Cache :=
  if size ≤ 0 then .error "must provide a positive size"
  else .ok { size := size.toNat, items := [] }

/-- The cache built by `init`: `lru.New(100)`. -/
def initCache : Cache :=
  { size := 100, items := [] }

/-- Number of entries, Go `Cache.Len`. -/
def Cache.Len (c : Cache) : Nat :=
  c.items.length

/-- Lookup that does not touch the recency order, Go `Cache.Peek`. -/
def Cache.Peek (c : Cache) (key : String) : Option Int :=
  (c.items.find? fun e => e.1 == key).map Prod.snd

/-- The keys held, most recently used first (Go `Cache.Keys`, reversed). -/
def Cache.keys (c : Cache) : List String :=
  c.items.map Prod.fst

/-- Go `Cache.Get`: on a hit the entry is moved to the front of the eviction
list (`evictList.MoveToFront`) and its value returned; a miss leaves the cache
as it is. -/
def Cache.Get (c : Cache) (key : String) : Option Int × Cache :=
  match c.items.find? fun e => e.1 == key with
  | some e => (some e.2, { c with items := e :: c.items.eraseP fun e => e.1 == key })
  | none => (none, c)

/-- Go `Cache.Add`: an existing key is overwritten and moved to the front; a
new key is pushed to the front (`evictList.PushFront`) and, when the list is
now longer than the capacity, the entry at the back is removed
(`removeOldest`).  The flag tells whether an eviction took place. -/
def Cache.Add (c : Cache) (key : String) (value : Int) : Bool × Cache :=
  match c.items.find? fun e => e.1 == key with
  | some _ => (false, { c with items := (key, value) :: c.items.eraseP fun e => e.1 == key })
  | none =>
    let items := (key, value) :: c.items
    if items.length > c.size then (true, { c with items := items.dropLast })
    else (false, { c with items := items })

/-! ## Transactions and collaborators -/

/-- The arguments of `types.NewTransaction`. -/
structure Transaction where
  nonce : Nat
  toAddr : Address
  amount : Int
  gasLimit : Nat
  gasPrice : Int
  data : Bytes
deriving DecidableEq, Repr

/-- The result of `types.SignTx`: the transaction with its signature. -/
structure SignedTx where
  tx : Transaction
  sig : Bytes
deriving DecidableEq, Repr

/-- An `ethereum.CallMsg` with the two fields `getBalanceOf` sets. -/
structure CallMsg where
  To : Address
  Data : Bytes
deriving DecidableEq, Repr

/-- The chain identifier `chainID` of `main.go`. -/
def chainID : Nat := 11155111

/-- The collaborators of the relay, each a function that may fail with a
message.  `σ` is the state of the ledger as seen through the client; every
client call may change it. -/
structure Deps (σ : Type) where
  /-- `abi.JSON(strings.NewReader(abiJSON))`. -/
  parseABI : Except String Unit
  /-- `parsedABI.Pack("balanceOf", address)`. -/
  packBalanceOf : Address → Except String Bytes
  /-- `parsedABI.Pack("awardItem", address, tokenURI)`. -/
  packAwardItem : Address → String → Except String Bytes
  /-- `parsedABI.UnpackIntoInterface(&balance, "balanceOf", output)`. -/
  unpackBalanceOf : Bytes → Except String Int
  /-- `client.CallContract(ctx, msg, nil)`. -/
  callContract : σ → CallMsg → Except String Bytes × σ
  /-- `client.SuggestGasPrice(ctx)`. -/
  suggestGasPrice : σ → Except String Int × σ
  /-- `client.SendTransaction(ctx, signedTx)`; `none` is success. -/
  sendTransaction : σ → SignedTx → Option String × σ
  /-- The signature computed by
  `types.SignTx(tx, types.NewEIP155Signer(chainID), key)`. -/
  signTx : Transaction → Nat → Except String Bytes
  /-- `signedTx.Hash().Hex()`. -/
  hashHex : SignedTx → String
  /-- The conversion `uint64(f)` of a decoded JSON number. -/
  uint64OfFloat64 : ℚ → Nat

/-- The effects a request can have on the cache and the collaborators. -/
inductive Event where
  | cacheGet (key : String)
  | cacheAdd (key : String) (value : Int)
  | abiParse
  | abiPack (method : String)
  | callContract (msg : CallMsg)
  | abiUnpack (output : Bytes)
  | suggestGasPrice
  | signTx (tx : Transaction)
  | sendTransaction (stx : SignedTx)
deriving DecidableEq, Repr

/-- The process-wide state: the cache, the ledger behind the client, and the
effects performed so far (oldest first). -/
structure World (σ : Type) where
  cache : Cache
  ledger : σ
  trace : List Event
deriving DecidableEq

/-- Append an effect to the trace. -/
def World.log {σ : Type} (w : World σ) (e : Event) : World σ :=
  { w with trace := w.trace ++ [e] }

/-- A ledger call: a read-only contract call, a gas-price query or a
broadcast. -/
def Event.isLedgerCall : Event → Bool
  | .callContract _ => true
  | .suggestGasPrice => true
  | .sendTransaction _ => true
  | _ => false

/-- A gas-price query. -/
def Event.isGasPrice : Event → Bool
  | .suggestGasPrice => true
  | _ => false

/-- A signing operation. -/
def Event.isSign : Event → Bool
  | .signTx _ => true
  | _ => false

/-- A broadcast. -/
def Event.isBroadcast : Event → Bool
  | .sendTransaction _ => true
  | _ => false

/-- An effect of the balance lookup: anything but a gas-price query, a
signing or a broadcast. -/
def Event.isBalanceStep : Event → Bool
  | .suggestGasPrice => false
  | .signTx _ => false
  | .sendTransaction _ => false
  | _ => true

/-- An effect of the transaction pipeline: a gas-price query, a signing or a
broadcast. -/
def Event.isTxStep : Event → Bool
  | .suggestGasPrice => true
  | .signTx _ => true
  | .sendTransaction _ => true
  | _ => false

/-- A cache lookup or insert. -/
def Event.isCacheOp : Event → Bool
  | .cacheGet _ => true
  | .cacheAdd _ _ => true
  | _ => false

/-! ## The operations of `main.go` -/

variable {σ : Type}

/-- Go `getBalanceOf`: answer from the cache on a hit; otherwise encode the
`balanceOf` call, perform the read-only contract call, decode the result,
store it in the cache and return it.  Every failure returns before the cache
is written. -/
def getBalanceOf (d : Deps σ) (playerAddress : String) (w : World σ) :
    Except String Int × World σ :=
  match w.cache.Get playerAddress with
  | (some val, cache) =>
    (.ok val, ({ w with cache := cache }).log (.cacheGet playerAddress))
  | (none, cache) =>
    let w := (({ w with cache := cache }).log (.cacheGet playerAddress)).log .abiParse
    match d.parseABI with
    | .error err => (.error ("failed to parse ABI: " ++ err), w)
    | .ok _ =>
      let address := HexToAddress playerAddress
      let w := w.log (.abiPack "balanceOf")
      match d.packBalanceOf address with
      | .error err => (.error ("failed to pack balanceOf function: " ++ err), w)
      | .ok callData =>
        let msg : CallMsg := { To := nftAddress, Data := callData }
        let w := w.log (.callContract msg)
        match d.callContract w.ledger msg with
        | (.error err, l) =>
          (.error ("failed to call balanceOf: " ++ err), { w with ledger := l })
        | (.ok output, l) =>
          let w := ({ w with ledger := l }).log (.abiUnpack output)
          match d.unpackBalanceOf output with
          | .error err => (.error ("failed to unpack balanceOf output: " ++ err), w)
          | .ok balance =>
            let w := ({ w with cache := (w.cache.Add playerAddress balance).2 }).log
              (.cacheAdd playerAddress balance)
            (.ok balance, w)

/-- Go `awardItem`: encode the `awardItem` call, ask for the gas price, build
the transaction with nonce 15 and gas limit 100000, sign it, broadcast it and
return the hash of the signed transaction. -/
def awardItem (d : Deps σ) (playerAddress tokenURI : String) (w : World σ) :
    Except String String × World σ :=
  let w := w.log .abiParse
  match d.parseABI with
  | .error err => (.error ("failed to parse ABI: " ++ err), w)
  | .ok _ =>
    let address := HexToAddress playerAddress
    let w := w.log (.abiPack "awardItem")
    match d.packAwardItem address tokenURI with
    | .error err => (.error ("failed to pack awardItem function: " ++ err), w)
    | .ok txData =>
      let w := w.log .suggestGasPrice
      match d.suggestGasPrice w.ledger with
      | (.error err, l) =>
        (.error ("failed to suggest gas price: " ++ err), { w with ledger := l })
      | (.ok gasPrice, l) =>
        let tx : Transaction :=
          { nonce := 15, toAddr := nftAddress, amount := 0, gasLimit := 100000,
            gasPrice := gasPrice, data := txData }
        let w := ({ w with ledger := l }).log (.signTx tx)
        match d.signTx tx chainID with
        | .error err => (.error ("transaction signing failed: " ++ err), w)
        | .ok sig =>
          let signedTx : SignedTx := { tx := tx, sig := sig }
          let w := w.log (.sendTransaction signedTx)
          match d.sendTransaction w.ledger signedTx with
          | (some err, l) =>
            (.error ("failed to send transaction: " ++ err), { w with ledger := l })
          | (none, l) => (.ok (d.hashHex signedTx), { w with ledger := l })

/-- Go `sendEtherWithAuth`: resolve the balance of the sender, refuse when it
is not positive, otherwise ask for the gas price, build the transfer with
nonce 19 and gas limit 21000, sign it, broadcast it and return the hash of
the signed transaction. -/
def sendEtherWithAuth (d : Deps σ) (senderAddress receiverAddress : String) (amount : Int)
    (w : World σ) : Except String String × World σ :=
  match getBalanceOf d senderAddress w with
  | (.error err, w) => (.error err, w)
  | (.ok balance, w) =>
    if balance ≤ 0 then (.error "user does not own an NFT", w)
    else
      let w := w.log .suggestGasPrice
      match d.suggestGasPrice w.ledger with
      | (.error err, l) =>
        (.error ("failed to suggest gas price: " ++ err), { w with ledger := l })
      | (.ok gasPrice, l) =>
        let tx : Transaction :=
          { nonce := 19, toAddr := HexToAddress receiverAddress, amount := amount,
            gasLimit := 21000, gasPrice := gasPrice, data := [] }
        let w := ({ w with ledger := l }).log (.signTx tx)
        match d.signTx tx chainID with
        | .error err => (.error ("transaction signing failed: " ++ err), w)
        | .ok sig =>
          let signedTx : SignedTx := { tx := tx, sig := sig }
          let w := w.log (.sendTransaction signedTx)
          match d.sendTransaction w.ledger signedTx with
          | (some err, l) =>
            (.error ("failed to send transaction: " ++ err), { w with ledger := l })
          | (none, l) => (.ok (d.hashHex signedTx), { w with ledger := l })

/-! ## The request dispatcher -/

/-- A value decoded by `encoding/json` into an `interface`. -/
inductive JSONValue where
  | null
  | bool (b : Bool)
  | number (f : ℚ)
  | string (s : String)
  | array (xs : List JSONValue)
  | object (kvs : List (String × JSONValue))

/-- Go `JSONRPCRequest`. -/
structure JSONRPCRequest where
  JSONRPC : String
  Method : String
  Params : List JSONValue
  ID : Int

/-- Go `JSONRPCResponse`; `Result` and `Error` are `none` when the field is
nil (and then left out of the encoded body). -/
structure JSONRPCResponse where
  JSONRPC : String
  Result : Option (List (String × String))
  Error : Option (List (String × String))
  ID : Int
deriving DecidableEq, Repr

/-- What a call of the handler leaves on the wire: a response body, or nothing
because the handler panicked before writing one. -/
inductive Outcome where
  | responded (resp : JSONRPCResponse)
  | panicked
deriving DecidableEq, Repr

/-- Go `sendResult`. -/
def sendResult (id : Int) (result : List (String × String)) : Outcome :=
  .responded { JSONRPC := "2.0", Result := some result, Error := none, ID := id }

/-- Go `sendError`. -/
def sendError (id : Int) (errMsg : String) : Outcome :=
  .responded { JSONRPC := "2.0", Result := none, Error := some [("message", errMsg)], ID := id }

/-- The type assertion `v.(string)`; `none` stands for the run-time panic. -/
def JSONValue.assertString : JSONValue → Option String
  | .string s => some s
  | _ => none

/-- The type assertion `v.(float64)`; `none` stands for the run-time panic. -/
def JSONValue.assertFloat64 : JSONValue → Option ℚ
  | .number f => some f
  | _ => none

/-- Go `big.Int.String`: the decimal form. -/
def bigIntString (b : Int) : String :=
  toString b

/-- Go `handleJSONRPC`.  `decodeErr` tells whether decoding the body failed;
`req` is the request as far as it was decoded. -/
def handleJSONRPC (d : Deps σ) (decodeErr : Bool) (req : JSONRPCRequest) (w : World σ) :
    Outcome × World σ :=
  if decodeErr then (sendError req.ID "Invalid JSON-RPC request", w)
  else if req.Method = "mintNFT" then
    if req.Params.length < 2 then (sendError req.ID "Invalid parameters", w)
    else
      match (req.Params.getD 0 .null).assertString with
      | none => (.panicked, w)
      | some playerAddress =>
        match (req.Params.getD 1 .null).assertString with
        | none => (.panicked, w)
        | some tokenURI =>
          match awardItem d playerAddress tokenURI w with
          | (.error err, w) => (sendError req.ID err, w)
          | (.ok txHash, w) => (sendResult req.ID [("tx_hash", txHash)], w)
  else if req.Method = "balanceOf" then
    if req.Params.length < 1 then (sendError req.ID "Invalid parameters", w)
    else
      match (req.Params.getD 0 .null).assertString with
      | none => (.panicked, w)
      | some playerAddress =>
        match getBalanceOf d playerAddress w with
        | (.error err, w) => (sendError req.ID err, w)
        | (.ok balance, w) => (sendResult req.ID [("balance", bigIntString balance)], w)
  else if req.Method = "sendEther" then
    if req.Params.length < 3 then (sendError req.ID "Invalid parameters", w)
    else
      match (req.Params.getD 0 .null).assertString with
      | none => (.panicked, w)
      | some senderAddress =>
        match (req.Params.getD 1 .null).assertString with
        | none => (.panicked, w)
        | some receiverAddress =>
          match (req.Params.getD 2 .null).assertFloat64 with
          | none => (.panicked, w)
          | some f =>
            let amount : Int := d.uint64OfFloat64 f
            match sendEtherWithAuth d senderAddress receiverAddress amount w with
            | (.error err, w) => (sendError req.ID err, w)
            | (.ok txHash, w) => (sendResult req.ID [("tx_hash", txHash)], w)
  else (sendError req.ID "Method not found", w)

/-! ## Observing a run -/

/-- The effects performed between the world `w` and a later world `w1`. -/
def performed (w w1 : World σ) : List Event :=
  w1.trace.drop w.trace.length

/-- The world right after `init`: the empty cache of capacity 100 and an
empty trace. -/
def initWorld (l : σ) : World σ :=
  { cache := initCache, ledger := l, trace := [] }

/-- A sequence of `getBalanceOf` calls, one per address, results dropped. -/
def getBalances (d : Deps σ) : List String → World σ → World σ
  | [], w => w
  | a :: rest, w => getBalances d rest (getBalanceOf d a w).2

/-- The transactions handed to `client.SendTransaction`, in order. -/
def broadcasts : List Event → List SignedTx
  | [] => []
  | .sendTransaction stx :: rest => stx :: broadcasts rest
  | _ :: rest => broadcasts rest

/-- The transaction built by `awardItem` from a gas price and a payload. -/
def awardTx (gasPrice : Int) (txData : Bytes) : Transaction :=
  { nonce := 15, toAddr := nftAddress, amount := 0, gasLimit := 100000,
    gasPrice := gasPrice, data := txData }

/-- The transaction built by `sendEtherWithAuth` from a gas price. -/
def transferTx (receiverAddress : String) (amount gasPrice : Int) : Transaction :=
  { nonce := 19, toAddr := HexToAddress receiverAddress, amount := amount,
    gasLimit := 21000, gasPrice := gasPrice, data := [] }

/-- The steps `awardItem` and `sendEtherWithAuth` have in common, from the
gas-price query to the end; `mk` builds the transaction from the price. -/
def pipeline (d : Deps σ) (mk : Int → Transaction) (w : World σ) :
    Except String String × World σ :=
  match d.suggestGasPrice w.ledger with
  | (.error err, l) =>
    (.error ("failed to suggest gas price: " ++ err),
      { cache := w.cache, ledger := l, trace := w.trace ++ [.suggestGasPrice] })
  | (.ok gasPrice, l) =>
    match d.signTx (mk gasPrice) chainID with
    | .error err =>
      (.error ("transaction signing failed: " ++ err),
        { cache := w.cache, ledger := l,
          trace := w.trace ++ [.suggestGasPrice, .signTx (mk gasPrice)] })
    | .ok sig =>
      match d.sendTransaction l { tx := mk gasPrice, sig := sig } with
      | (some err, l2) =>
        (.error ("failed to send transaction: " ++ err),
          { cache := w.cache, ledger := l2,
            trace := w.trace ++ [.suggestGasPrice, .signTx (mk gasPrice),
              .sendTransaction { tx := mk gasPrice, sig := sig }] })
      | (none, l2) =>
        (.ok (d.hashHex { tx := mk gasPrice, sig := sig }),
          { cache := w.cache, ledger := l2,
            trace := w.trace ++ [.suggestGasPrice, .signTx (mk gasPrice),
              .sendTransaction { tx := mk gasPrice, sig := sig }] })

/-- What a transaction-sending operation owes its caller.  `l0` is the ledger
state at the gas-price query, `evs` the effects the operation performed and
`res` its result.

* A transaction identifier is returned only if the gas-price query, the
  signing and the broadcast all succeeded, and it is the hash of the one
  signed transaction that was broadcast.
* If the gas-price query is made and fails, the result is an error carrying
  the message of the failure; whenever the query would fail, nothing is
  signed or broadcast.
* If a transaction is broadcast and the ledger rejects it, the result is an
  error carrying the message of the rejection. -/
def TxContract (d : Deps σ) (l0 : σ) (evs : List Event) (res : Except String String) : Prop :=
  (∀ h, res = .ok h →
    ∃ gp l tx sig l2, d.suggestGasPrice l0 = (.ok gp, l) ∧ tx.gasPrice = gp ∧
      d.signTx tx chainID = .ok sig ∧
      d.sendTransaction l { tx := tx, sig := sig } = (none, l2) ∧
      h = d.hashHex { tx := tx, sig := sig } ∧
      broadcasts evs = [{ tx := tx, sig := sig }] ∧
      evs.any Event.isGasPrice = true ∧ Event.signTx tx ∈ evs) ∧
  (∀ msg l, d.suggestGasPrice l0 = (.error msg, l) →
    evs.any Event.isSign = false ∧ evs.any Event.isBroadcast = false ∧
    (evs.any Event.isGasPrice = true →
      res = .error ("failed to suggest gas price: " ++ msg))) ∧
  (∀ gp l stx reason l2, d.suggestGasPrice l0 = (.ok gp, l) →
    Event.sendTransaction stx ∈ evs →
    d.sendTransaction l stx = (some reason, l2) →
    res = .error ("failed to send transaction: " ++ reason))

/-- A world whose cache holds the balance 0 for the address `0xABC`. -/
def zeroBalanceWorld : World Nat :=
  { cache := { size := 100, items := [("0xABC", 0)] }, ledger := 0, trace := [] }

/-- The transfer request of the specification:
`"method":"sendEther","params":["0xABC","0xDEF",100],"id":2`. -/
def transferRequest : JSONRPCRequest :=
  { JSONRPC := "2.0", Method := "sendEther",
    Params := [.string "0xABC", .string "0xDEF", .number 100], ID := 2 }

/-- The request of the specification with parameters missing:
`"method":"sendEther","params":["0xABC"],"id":3`. -/
def shortRequest : JSONRPCRequest :=
  { JSONRPC := "2.0", Method := "sendEther", Params := [.string "0xABC"], ID := 3 }

/-- A `balanceOf` request whose address parameter is a number:
`"method":"balanceOf","params":[1],"id":7`. -/
def wrongTypeRequest : JSONRPCRequest :=
  { JSONRPC := "2.0", Method := "balanceOf", Params := [.number 1], ID := 7 }

/-- The lower-case hex digit of a number below 16. -/
def hexDigit (n : Nat) : Char :=
  Char.ofNat (if n < 10 then 48 + n else 87 + n)

/-- The address string `0x` followed by the two hex digits of `i`. -/
def addrOf (i : Nat) : String :=
  "0x" ++ String.mk [hexDigit (i / 16), hexDigit (i % 16)]

/-- The hundred address strings `0x00`, `0x01`, ..., `0x63`. -/
def hundredAddresses : List String :=
  (List.range 100).map addrOf

/-- The conversion `uint64(f)` used by the scripted collaborators.  In range
the value is truncated toward zero.  Out of range Go leaves the result to the
implementation; the values here are those of the amd64 build: a negative
number above `-2^63` wraps around `2^64`, anything else gives `2^63`. -/
def uint64OfFloat64 (f : ℚ) : Nat :=
  if 0 ≤ f ∧ f < 2 ^ 64 then f.floor.toNat
  else if -(2 ^ 63) ≤ f ∧ f < 0 then (2 ^ 64 - (-f).floor.toNat) % 2 ^ 64
  else 2 ^ 63

/-- A scripted set of collaborators over a ledger that counts the client
calls made: every balance read answers `balance`, the gas price is 7, the
signature is the nonce, and the hash names the nonce and the amount. -/
def scriptedDeps (balance : Int) : Deps Nat where
  parseABI := .ok ()
  packBalanceOf a := .ok (0x70 :: 0xa0 :: 0x82 :: 0x31 :: (List.replicate 12 0 ++ a))
  packAwardItem a uri := .ok (a ++ goBytes uri)
  unpackBalanceOf out :=
    match out with
    | [b] => .ok (b : Int)
    | _ => .error "abi: improperly formatted output"
  callContract l _ := (.ok [balance.toNat], l + 1)
  suggestGasPrice l := (.ok 7, l + 1)
  sendTransaction l _ := (none, l + 1)
  signTx tx _ := .ok [tx.nonce]
  hashHex stx := "0x" ++ toString stx.tx.nonce ++ "-" ++ toString stx.tx.amount
  uint64OfFloat64 := uint64OfFloat64

/-- Collaborators whose ledger client is unreachable: every client call
fails. -/
def offlineDeps : Deps Nat where
  parseABI := .ok ()
  packBalanceOf a := .ok a
  packAwardItem a _ := .ok a
  unpackBalanceOf _ := .error "abi: improperly formatted output"
  callContract l _ := (.error "connection refused", l + 1)
  suggestGasPrice l := (.error "connection refused", l + 1)
  sendTransaction l _ := (some "connection refused", l + 1)
  signTx _ _ := .error "private key missing"
  hashHex _ := ""
  uint64OfFloat64 := uint64OfFloat64

/-- The world reached from the empty cache by reading the balances of the
hundred addresses `0x00` to `0x63` in order and then reading `0x00` again. -/
def fullWorld : World Nat :=
  getBalances (scriptedDeps 3) (hundredAddresses ++ ["0x00"]) (initWorld 0)

/-- The world reached from the empty cache by one successful balance read for
the string `0xAB`. -/
def upperCaseWorld : World Nat :=
  (getBalanceOf (scriptedDeps 3) "0xAB" (initWorld 0)).2

/-- The invariant of the cache: capacity 100, never more entries than that,
no key twice. -/
def Cache.Inv (c : Cache) : Prop :=
  c.size = 100 ∧ c.Len ≤ 100 ∧ c.keys.Nodup

/-! ## Lemmas on the cache -/

theorem lruNew_init : lruNew 100 = .ok initCache := rfl

theorem Cache.Get_fst (c : Cache) (key : String) : (c.Get key).1 = c.Peek key := by
  unfold Cache.Get Cache.Peek
  cases c.items.find? fun e => e.1 == key <;> rfl

theorem Cache.Get_miss (c : Cache) (key : String) (h : c.Peek key = none) :
    c.Get key = (none, c) := by
  unfold Cache.Peek at h
  unfold Cache.Get
  cases hf : c.items.find? fun e => e.1 == key with
  | none => rfl
  | some e => rw [hf] at h; cases h

theorem Cache.Get_size (c : Cache) (key : String) : (c.Get key).2.size = c.size := by
  unfold Cache.Get
  cases c.items.find? fun e => e.1 == key <;> rfl

theorem Cache.Add_size (c : Cache) (key : String) (v : Int) : (c.Add key v).2.size = c.size := by
  unfold Cache.Add
  cases c.items.find? fun e => e.1 == key with
  | some e => rfl
  | none =>
    simp only
    split <;> rfl

/-! ## Lemmas on the operations -/

theorem getBalanceOf_trace (d : Deps σ) (A : String) (w : World σ) :
    ∃ evs, (getBalanceOf d A w).2.trace = w.trace ++ evs ∧
      ∀ e ∈ evs, e.isBalanceStep = true := by
  unfold getBalanceOf
  repeat' first | split | (dsimp only; split)
  all_goals simp [World.log, Event.isBalanceStep]

theorem getBalanceOf_error_cache (d : Deps σ) (A : String) (w : World σ) (err : String)
    (w1 : World σ) (h : getBalanceOf d A w = (.error err, w1)) : w1.cache = w.cache := by
  unfold getBalanceOf at h
  rcases hG : w.cache.Get A with ⟨_ | v, c⟩
  · have hc : c = w.cache := by
      have h1 := Cache.Get_fst w.cache A
      rw [hG] at h1
      have h2 := Cache.Get_miss w.cache A h1.symm
      rw [hG] at h2
      exact (Prod.mk.inj h2).2
    subst hc
    rw [hG] at h
    dsimp only at h
    repeat' split at h
    all_goals simp [World.log] at h
    all_goals (rw [← h.2])
  · rw [hG] at h
    simp at h

theorem sendEtherWithAuth_eq (d : Deps σ) (sender receiver : String) (amount : Int)
    (w : World σ) :
    sendEtherWithAuth d sender receiver amount w =
      match getBalanceOf d sender w with
      | (.error err, w1) => (.error err, w1)
      | (.ok balance, w1) =>
        if balance ≤ 0 then (.error "user does not own an NFT", w1)
        else pipeline d (transferTx receiver amount) w1 := by
  unfold sendEtherWithAuth pipeline transferTx
  repeat' first | split | (dsimp only; split)
  all_goals simp_all [World.log]

theorem awardItem_eq (d : Deps σ) (player uri : String) (w : World σ) :
    awardItem d player uri w =
      match d.parseABI with
      | .error err => (.error ("failed to parse ABI: " ++ err), w.log .abiParse)
      | .ok _ =>
        match d.packAwardItem (HexToAddress player) uri with
        | .error err =>
          (.error ("failed to pack awardItem function: " ++ err),
            (w.log .abiParse).log (.abiPack "awardItem"))
        | .ok txData =>
          pipeline d (fun gp => awardTx gp txData)
            ((w.log .abiParse).log (.abiPack "awardItem")) := by
  unfold awardItem pipeline awardTx
  repeat' first | split | (dsimp only; split)
  all_goals simp_all [World.log]

/-- The four ways the transaction pipeline can end. -/
theorem pipeline_cases (d : Deps σ) (mk : Int → Transaction) (w : World σ) :
    (∃ err l, d.suggestGasPrice w.ledger = (.error err, l) ∧
      pipeline d mk w = (.error ("failed to suggest gas price: " ++ err),
        { cache := w.cache, ledger := l, trace := w.trace ++ [.suggestGasPrice] })) ∨
    (∃ gp l err, d.suggestGasPrice w.ledger = (.ok gp, l) ∧
      d.signTx (mk gp) chainID = .error err ∧
      pipeline d mk w = (.error ("transaction signing failed: " ++ err),
        { cache := w.cache, ledger := l,
          trace := w.trace ++ [.suggestGasPrice, .signTx (mk gp)] })) ∨
    (∃ gp l sig err l2, d.suggestGasPrice w.ledger = (.ok gp, l) ∧
      d.signTx (mk gp) chainID = .ok sig ∧
      d.sendTransaction l { tx := mk gp, sig := sig } = (some err, l2) ∧
      pipeline d mk w = (.error ("failed to send transaction: " ++ err),
        { cache := w.cache, ledger := l2,
          trace := w.trace ++ [.suggestGasPrice, .signTx (mk gp),
            .sendTransaction { tx := mk gp, sig := sig }] })) ∨
    (∃ gp l sig l2, d.suggestGasPrice w.ledger = (.ok gp, l) ∧
      d.signTx (mk gp) chainID = .ok sig ∧
      d.sendTransaction l { tx := mk gp, sig := sig } = (none, l2) ∧
      pipeline d mk w = (.ok (d.hashHex { tx := mk gp, sig := sig }),
        { cache := w.cache, ledger := l2,
          trace := w.trace ++ [.suggestGasPrice, .signTx (mk gp),
            .sendTransaction { tx := mk gp, sig := sig }] })) := by
  unfold pipeline
  rcases h1 : d.suggestGasPrice w.ledger with ⟨err | gp, l⟩
  · exact Or.inl ⟨err, l, rfl, rfl⟩
  · rcases h2 : d.signTx (mk gp) chainID with err | sig
    · exact Or.inr (Or.inl ⟨gp, l, err, rfl, h2, by simp [h2]⟩)
    · rcases h3 : d.sendTransaction l { tx := mk gp, sig := sig } with ⟨_ | err, l2⟩
      · exact Or.inr (Or.inr (Or.inr ⟨gp, l, sig, l2, rfl, h2, h3, by simp [h2, h3]⟩))
      · exact Or.inr (Or.inr (Or.inl ⟨gp, l, sig, err, l2, rfl, h2, h3, by simp [h2, h3]⟩))

theorem pipeline_cache (d : Deps σ) (mk : Int → Transaction) (w : World σ) :
    (pipeline d mk w).2.cache = w.cache := by
  rcases pipeline_cases d mk w with ⟨_, _, _, h⟩ | ⟨_, _, _, _, _, h⟩ |
    ⟨_, _, _, _, _, _, _, _, h⟩ | ⟨_, _, _, _, _, _, _, h⟩ <;> rw [h]

theorem pipeline_trace (d : Deps σ) (mk : Int → Transaction) (w : World σ) :
    ∃ evs, (pipeline d mk w).2.trace = w.trace ++ .suggestGasPrice :: evs ∧
      ∀ e ∈ evs, e.isTxStep = true := by
  rcases pipeline_cases d mk w with ⟨_, _, _, h⟩ | ⟨_, _, _, _, _, h⟩ |
    ⟨_, _, _, _, _, _, _, _, h⟩ | ⟨_, _, _, _, _, _, _, h⟩ <;> rw [h] <;>
    simp [Event.isTxStep]

/-! ## The authorization gate -/

/-- C1. `sendEtherWithAuth` queries the gas price exactly when the balance
resolved by `getBalanceOf` for the sender is strictly positive, and signs or
broadcasts only then; with a positive balance the signing follows a successful
gas-price query and the broadcast a successful signing.  When the resolved
balance is zero or less it returns an error, stops in the world the balance
lookup left, and performs no gas-price query, signing or broadcast. -/
theorem sendEtherWithAuth_gate (d : Deps σ) (sender receiver : String) (amount : Int)
    (w : World σ) :
    let out := sendEtherWithAuth d sender receiver amount w
    let evs := performed w out.2
    (evs.any Event.isGasPrice = true ↔
        ∃ b w1, getBalanceOf d sender w = (.ok b, w1) ∧ 0 < b) ∧
    (evs.any Event.isSign = true →
        ∃ b w1, getBalanceOf d sender w = (.ok b, w1) ∧ 0 < b) ∧
    (evs.any Event.isBroadcast = true →
        ∃ b w1, getBalanceOf d sender w = (.ok b, w1) ∧ 0 < b) ∧
    (∀ b w1, getBalanceOf d sender w = (.ok b, w1) → b ≤ 0 →
        out = (.error "user does not own an NFT", w1) ∧
        evs.any Event.isGasPrice = false ∧ evs.any Event.isSign = false ∧
        evs.any Event.isBroadcast = false) ∧
    (∀ b w1, getBalanceOf d sender w = (.ok b, w1) → 0 < b →
        ∀ gp l, d.suggestGasPrice w1.ledger = (.ok gp, l) →
          evs.any Event.isSign = true ∧
          ∀ sig, d.signTx (transferTx receiver amount gp) chainID = .ok sig →
            evs.any Event.isBroadcast = true) := by
  intro out evs
  obtain ⟨bevs, hbt, hbs⟩ := getBalanceOf_trace d sender w
  have hout : out = sendEtherWithAuth d sender receiver amount w := rfl
  have hevs : evs = performed w out.2 := rfl
  clear_value out evs
  rw [sendEtherWithAuth_eq] at hout
  have hno : bevs.any Event.isGasPrice = false ∧ bevs.any Event.isSign = false ∧
      bevs.any Event.isBroadcast = false := by
    refine ⟨?_, ?_, ?_⟩ <;>
    · rw [List.any_eq_false]
      intro e he
      have := hbs e he
      cases e <;> simp_all [Event.isBalanceStep, Event.isGasPrice, Event.isSign,
        Event.isBroadcast]
  rcases hg : getBalanceOf d sender w with ⟨err | b, w1⟩
  · rw [hg] at hout hbt
    simp only at hout hbt
    subst hout
    simp only [performed, hbt, List.drop_left] at hevs
    subst hevs
    simp [hno]
  · rw [hg] at hout hbt
    simp only at hout hbt
    by_cases hb : b ≤ 0
    · rw [if_pos hb] at hout
      subst hout
      simp only [performed, hbt, List.drop_left] at hevs
      subst hevs
      simp [hno, hb, not_lt.mpr hb]
    · rw [if_neg hb] at hout
      have hb2 : 0 < b := not_le.mp hb
      rcases pipeline_cases d (transferTx receiver amount) w1 with
        ⟨e, l, h1, h⟩ | ⟨gp, l, e, h1, h2, h⟩ | ⟨gp, l, sig, e, l2, h1, h2, h3, h⟩ |
        ⟨gp, l, sig, l2, h1, h2, h3, h⟩
      all_goals
        rw [h] at hout
        subst hout
        simp only [performed, hbt, List.drop_left, List.append_assoc] at hevs
        subst hevs
        simp_all [Event.isGasPrice, Event.isSign, Event.isBroadcast]

/-- Witness for C1: with a balance of 0 the transfer is refused, with a
balance of 3 it is broadcast. -/
theorem sendEtherWithAuth_gate_witness :
    (sendEtherWithAuth (scriptedDeps 0) "0xab" "0xcd" 100 (initWorld 0)).1
        = .error "user does not own an NFT" ∧
    (performed (initWorld 0)
        (sendEtherWithAuth (scriptedDeps 0) "0xab" "0xcd" 100 (initWorld 0)).2).any
          Event.isGasPrice = false ∧
    (performed (initWorld 0)
        (sendEtherWithAuth (scriptedDeps 3) "0xab" "0xcd" 100 (initWorld 0)).2).any
          Event.isBroadcast = true :=
  ⟨congrArg Prod.fst
      ((sendEtherWithAuth_gate (scriptedDeps 0) "0xab" "0xcd" 100 (initWorld 0)).2.2.2.1 0
        (getBalanceOf (scriptedDeps 0) "0xab" (initWorld 0)).2 rfl (by decide)).1,
    ((sendEtherWithAuth_gate (scriptedDeps 0) "0xab" "0xcd" 100 (initWorld 0)).2.2.2.1 0
        (getBalanceOf (scriptedDeps 0) "0xab" (initWorld 0)).2 rfl (by decide)).2.1,
    ((sendEtherWithAuth_gate (scriptedDeps 3) "0xab" "0xcd" 100 (initWorld 0)).2.2.2.2 3
        (getBalanceOf (scriptedDeps 3) "0xab" (initWorld 0)).2 rfl (by decide) 7 2 rfl).2
        [19] rfl⟩

/-! ## The cache as a frame -/

/-- C5. The cache is written only after a fully successful balance read: when
`getBalanceOf` returns an error the cache is what it was; `awardItem` never
touches the cache; and in `sendEtherWithAuth` nothing after the balance lookup
(the refusal, the gas-price query, the signing, the broadcast) touches it,
whatever the outcome. -/
theorem cache_frame (d : Deps σ) (a b : String) (amount : Int) (w : World σ) :
    (∀ err w1, getBalanceOf d a w = (.error err, w1) → w1.cache = w.cache) ∧
    (awardItem d a b w).2.cache = w.cache ∧
    (performed w (awardItem d a b w).2).any Event.isCacheOp = false ∧
    (sendEtherWithAuth d a b amount w).2.cache = (getBalanceOf d a w).2.cache ∧
    (performed (getBalanceOf d a w).2 (sendEtherWithAuth d a b amount w).2).any
      Event.isCacheOp = false := by
  refine ⟨fun err w1 h => getBalanceOf_error_cache d a w err w1 h, ?_, ?_, ?_, ?_⟩
  · rw [awardItem_eq]
    repeat' split
    · rfl
    · rfl
    · rw [pipeline_cache]; rfl
  · rw [awardItem_eq]
    repeat' split
    · simp [performed, World.log, Event.isCacheOp]
    · simp [performed, World.log, Event.isCacheOp]
    · have hw0 : ((w.log .abiParse).log (.abiPack "awardItem")).trace =
          w.trace ++ [.abiParse, .abiPack "awardItem"] := by simp [World.log]
      generalize (w.log .abiParse).log (.abiPack "awardItem") = w0 at hw0 ⊢
      obtain ⟨evs, ht, hs⟩ := pipeline_trace d (fun gp => awardTx gp ‹Bytes›) w0
      rw [List.any_eq_false]
      intro e he
      simp only [performed, ht, hw0, List.append_assoc, List.drop_left] at he
      simp only [List.cons_append, List.nil_append, List.mem_cons] at he
      rcases he with rfl | rfl | rfl | he
      · simp [Event.isCacheOp]
      · simp [Event.isCacheOp]
      · simp [Event.isCacheOp]
      · have := hs e he
        cases e <;> simp_all [Event.isTxStep, Event.isCacheOp]
  · rw [sendEtherWithAuth_eq]
    rcases getBalanceOf d a w with ⟨err | bal, w1⟩
    · rfl
    · dsimp only
      split
      · rfl
      · rw [pipeline_cache]
  · rw [sendEtherWithAuth_eq]
    rcases getBalanceOf d a w with ⟨err | bal, w1⟩
    · simp [performed]
    · dsimp only
      split
      · simp [performed]
      · obtain ⟨evs, ht, hs⟩ := pipeline_trace d (transferTx b amount) w1
        rw [List.any_eq_false]
        intro e he
        simp only [performed, ht, List.drop_left, List.mem_cons] at he
        rcases he with rfl | he
        · simp [Event.isCacheOp]
        · have := hs e he
          cases e <;> simp_all [Event.isTxStep, Event.isCacheOp]

/-- Witness for C5: with the ledger unreachable the balance read fails and the
cache stays empty. -/
theorem cache_frame_witness :
    (getBalanceOf offlineDeps "0xab" (initWorld 0)).1
        = .error "failed to call balanceOf: connection refused" ∧
    (getBalanceOf offlineDeps "0xab" (initWorld 0)).2.cache = initCache :=
  ⟨rfl, (cache_frame offlineDeps "0xab" "" 0 (initWorld 0)).1
      "failed to call balanceOf: connection refused"
      (getBalanceOf offlineDeps "0xab" (initWorld 0)).2 rfl⟩

/-! ## Results of the transaction pipeline -/

theorem broadcasts_append (xs ys : List Event) :
    broadcasts (xs ++ ys) = broadcasts xs ++ broadcasts ys := by
  induction xs with
  | nil => rfl
  | cons x xs ih => cases x <;> simp [broadcasts, ih]

theorem broadcasts_of_no_tx (xs : List Event) (h : ∀ e ∈ xs, e.isTxStep = false) :
    broadcasts xs = [] := by
  induction xs with
  | nil => rfl
  | cons x xs ih =>
    have hx := h x (List.mem_cons_self _ _)
    have hxs := ih fun e he => h e (List.mem_cons_of_mem _ he)
    cases x <;> simp_all [broadcasts, Event.isTxStep]

theorem TxContract_of_no_tx (d : Deps σ) (l0 : σ) (evs : List Event) (err : String)
    (h : ∀ e ∈ evs, e.isTxStep = false) : TxContract d l0 evs (.error err) := by
  have hg : evs.any Event.isGasPrice = false := by
    rw [List.any_eq_false]
    intro e he
    have := h e he
    cases e <;> simp_all [Event.isTxStep, Event.isGasPrice]
  have hs : evs.any Event.isSign = false := by
    rw [List.any_eq_false]
    intro e he
    have := h e he
    cases e <;> simp_all [Event.isTxStep, Event.isSign]
  have hb : evs.any Event.isBroadcast = false := by
    rw [List.any_eq_false]
    intro e he
    have := h e he
    cases e <;> simp_all [Event.isTxStep, Event.isBroadcast]
  unfold TxContract
  refine ⟨fun _ hh => (by cases hh), fun msg l _ => ⟨hs, hb, fun h2 => ?_⟩, ?_⟩
  · rw [hg] at h2; cases h2
  · intro gp l stx reason l2 _ hmem _
    have := h _ hmem
    simp [Event.isTxStep] at this

theorem TxContract_pipeline (d : Deps σ) (mk : Int → Transaction) (hmk : ∀ gp, (mk gp).gasPrice = gp)
    (w : World σ) (pre : List Event)
    (hpre : ∀ e ∈ pre, e.isTxStep = false) :
    TxContract d w.ledger (pre ++ performed w (pipeline d mk w).2) (pipeline d mk w).1 := by
  have hbp := broadcasts_of_no_tx pre hpre
  have hpre2 : ∀ stx, Event.sendTransaction stx ∉ pre := by
    intro stx hmem
    have := hpre _ hmem
    simp [Event.isTxStep] at this
  have hs : pre.any Event.isSign = false := by
    rw [List.any_eq_false]
    intro e he
    have := hpre e he
    cases e <;> simp_all [Event.isTxStep, Event.isSign]
  have hb : pre.any Event.isBroadcast = false := by
    rw [List.any_eq_false]
    intro e he
    have := hpre e he
    cases e <;> simp_all [Event.isTxStep, Event.isBroadcast]
  rcases pipeline_cases d mk w with
    ⟨e, l, h1, h⟩ | ⟨gp, l, e, h1, h2, h⟩ | ⟨gp, l, sig, e, l2, h1, h2, h3, h⟩ |
    ⟨gp, l, sig, l2, h1, h2, h3, h⟩
  · rw [h]
    simp only [performed, List.drop_left]
    unfold TxContract
    simp_all [broadcasts_append, broadcasts, Event.isGasPrice, Event.isSign, Event.isBroadcast]
  · rw [h]
    simp only [performed, List.drop_left]
    unfold TxContract
    simp_all [broadcasts_append, broadcasts, Event.isGasPrice, Event.isSign, Event.isBroadcast]
  · rw [h]
    simp only [performed, List.drop_left]
    unfold TxContract
    refine ⟨fun _ hh => (by cases hh), fun msg l0 hm => ?_, ?_⟩
    · rw [h1] at hm; cases hm
    · intro gp1 l1 stx reason l3 hg hmem hsend
      rw [h1] at hg
      cases hg
      simp only [List.mem_append, List.mem_cons, List.mem_singleton, List.not_mem_nil,
        or_false] at hmem
      rcases hmem with hmem | hmem | hmem | hmem
      · exact absurd hmem (hpre2 stx)
      · cases hmem
      · cases hmem
      · cases hmem
        rw [h3] at hsend
        cases hsend
        rfl
  · rw [h]
    simp only [performed, List.drop_left]
    unfold TxContract
    refine ⟨fun hh hhh => ?_, fun msg l0 hm => ?_, ?_⟩
    · cases hhh
      refine ⟨gp, l, mk gp, sig, l2, h1, hmk gp, h2, h3, rfl, ?_, ?_, ?_⟩
      · simp [broadcasts_append, hbp, broadcasts]
      · simp [Event.isGasPrice]
      · simp
    · rw [h1] at hm; cases hm
    · intro gp1 l1 stx reason l3 hg hmem hsend
      rw [h1] at hg
      cases hg
      simp only [List.mem_append, List.mem_cons, List.mem_singleton, List.not_mem_nil,
        or_false] at hmem
      rcases hmem with hmem | hmem | hmem | hmem
      · exact absurd hmem (hpre2 stx)
      · cases hmem
      · cases hmem
      · cases hmem
        rw [h3] at hsend
        cases hsend

theorem performed_pipeline (d : Deps σ) (mk : Int → Transaction) (w w0 : World σ)
    (pre : List Event) (h : w0.trace = w.trace ++ pre) :
    performed w (pipeline d mk w0).2 = pre ++ performed w0 (pipeline d mk w0).2 := by
  obtain ⟨evs, ht, _⟩ := pipeline_trace d mk w0
  simp only [performed, ht]
  rw [List.drop_left, h, List.append_assoc, List.drop_left]

/-- C9. `awardItem` and `sendEtherWithAuth` both meet `TxContract`: a
transaction identifier is returned only if the gas-price query, the signing
and the broadcast all succeeded, and it is then the hash of the signed
transaction that was broadcast; a failed gas-price query ends the call with an
error carrying the failure message, with nothing signed or broadcast; a
rejected broadcast ends it with an error carrying the rejection message. -/
theorem tx_result_contract (d : Deps σ) (player uri sender receiver : String) (amount : Int)
    (w : World σ) :
    TxContract d w.ledger (performed w (awardItem d player uri w).2)
      (awardItem d player uri w).1 ∧
    TxContract d (getBalanceOf d sender w).2.ledger
      (performed w (sendEtherWithAuth d sender receiver amount w).2)
      (sendEtherWithAuth d sender receiver amount w).1 := by
  constructor
  · rw [awardItem_eq]
    repeat' split
    · apply TxContract_of_no_tx
      simp [performed, World.log, Event.isTxStep]
    · apply TxContract_of_no_tx
      simp [performed, World.log, Event.isTxStep]
    · rename_i txData _
      have hw0 : ((w.log .abiParse).log (.abiPack "awardItem")).trace =
          w.trace ++ [.abiParse, .abiPack "awardItem"] := by simp [World.log]
      have hl0 : ((w.log .abiParse).log (.abiPack "awardItem")).ledger = w.ledger := rfl
      generalize (w.log .abiParse).log (.abiPack "awardItem") = w0 at hw0 hl0 ⊢
      rw [performed_pipeline d _ w w0 _ hw0, ← hl0]
      apply TxContract_pipeline
      · intro gp; rfl
      · simp [Event.isTxStep]
  · obtain ⟨bevs, hbt, hbs⟩ := getBalanceOf_trace d sender w
    have hbs2 : ∀ e ∈ bevs, e.isTxStep = false := by
      intro e he
      have := hbs e he
      cases e <;> simp_all [Event.isTxStep, Event.isBalanceStep]
    rw [sendEtherWithAuth_eq]
    rcases hg : getBalanceOf d sender w with ⟨err | bal, w1⟩ <;> rw [hg] at hbt
    · simp only at hbt ⊢
      apply TxContract_of_no_tx
      simpa [performed, hbt] using hbs2
    · simp only at hbt ⊢
      split
      · apply TxContract_of_no_tx
        simpa [performed, hbt] using hbs2
      · rw [performed_pipeline d _ w w1 _ hbt]
        apply TxContract_pipeline
        · intro gp; rfl
        · exact hbs2

/-- Witness for C9: a mint against the scripted ledger returns the hash of the
transaction it broadcast; a mint against the unreachable ledger returns the
gas-price failure and signs nothing. -/
theorem tx_result_contract_witness :
    (∃ gp l tx sig l2, (scriptedDeps 3).suggestGasPrice 0 = (.ok gp, l) ∧ tx.gasPrice = gp ∧
      (scriptedDeps 3).signTx tx chainID = .ok sig ∧
      (scriptedDeps 3).sendTransaction l { tx := tx, sig := sig } = (none, l2) ∧
      "0x15-0" = (scriptedDeps 3).hashHex { tx := tx, sig := sig } ∧
      broadcasts (performed (initWorld 0) (awardItem (scriptedDeps 3) "0xab" "ipfs" (initWorld 0)).2)
        = [{ tx := tx, sig := sig }] ∧
      (performed (initWorld 0)
        (awardItem (scriptedDeps 3) "0xab" "ipfs" (initWorld 0)).2).any Event.isGasPrice = true ∧
      Event.signTx tx ∈
        performed (initWorld 0) (awardItem (scriptedDeps 3) "0xab" "ipfs" (initWorld 0)).2) ∧
    (awardItem offlineDeps "0xab" "ipfs" (initWorld 0)).1
      = .error ("failed to suggest gas price: " ++ "connection refused") :=
  ⟨(tx_result_contract (scriptedDeps 3) "0xab" "ipfs" "0xab" "0xcd" 1 (initWorld 0)).1.1
      "0x15-0" rfl,
    ((tx_result_contract offlineDeps "0xab" "ipfs" "0xab" "0xcd" 1 (initWorld 0)).1.2.1
      "connection refused" 1 rfl).2.2 (by decide)⟩

/-! ## Reading balances through the cache -/

theorem Cache.Peek_Add (c : Cache) (key : String) (v : Int) (hsize : 0 < c.size) :
    (c.Add key v).2.Peek key = some v := by
  unfold Cache.Add Cache.Peek
  cases c.items.find? fun e => e.1 == key with
  | some e => simp
  | none =>
    dsimp only
    split
    · rename_i hlen
      cases hitems : c.items with
      | nil => simp [hitems] at hlen; omega
      | cons x xs => simp [List.dropLast]
    · simp

theorem getBalanceOf_hit (d : Deps σ) (A : String) (w : World σ) (b : Int)
    (h : w.cache.Peek A = some b) :
    getBalanceOf d A w =
      (.ok b, { cache := (w.cache.Get A).2, ledger := w.ledger,
                trace := w.trace ++ [.cacheGet A] }) := by
  have h1 := Cache.Get_fst w.cache A
  rw [h] at h1
  unfold getBalanceOf
  rcases hG : w.cache.Get A with ⟨o, c⟩
  rw [hG] at h1
  simp only at h1
  subst h1
  rfl

theorem getBalanceOf_miss_ok (d : Deps σ) (A : String) (w : World σ) (N : Int) (u : Unit)
    (callData output : Bytes) (l : σ)
    (hmiss : w.cache.Peek A = none) (hparse : d.parseABI = .ok u)
    (hpack : d.packBalanceOf (HexToAddress A) = .ok callData)
    (hcall : d.callContract w.ledger { To := nftAddress, Data := callData } = (.ok output, l))
    (hunpack : d.unpackBalanceOf output = .ok N) :
    getBalanceOf d A w =
      (.ok N, { cache := (w.cache.Add A N).2, ledger := l,
                trace := w.trace ++ [.cacheGet A, .abiParse, .abiPack "balanceOf",
                  .callContract { To := nftAddress, Data := callData }, .abiUnpack output,
                  .cacheAdd A N] }) := by
  unfold getBalanceOf
  rw [Cache.Get_miss _ _ hmiss]
  simp [World.log, hparse, hpack, hcall, hunpack]

/-- C3. On a miss, when the read-only ledger call succeeds with a payload that
decodes to `N`, `getBalanceOf A` returns `N` and the cache then maps `A` to
`N`.  On a hit for `A` with cached balance `b`, `getBalanceOf A` returns `b`,
its only effect is the cache lookup (no ledger call, ledger untouched), and a
`balanceOf` request for `A` is answered with the id of the request, no error,
and the result `balance` set to the decimal string of `b`: the base-10 digits
of `b`, after a minus sign when `b` is negative. -/
theorem getBalanceOf_cached (d : Deps σ) (A : String) (N : Int) (w : World σ) :
    (∀ u callData output l, w.cache.Peek A = none → 0 < w.cache.size →
      d.parseABI = .ok u → d.packBalanceOf (HexToAddress A) = .ok callData →
      d.callContract w.ledger { To := nftAddress, Data := callData } = (.ok output, l) →
      d.unpackBalanceOf output = .ok N →
      (getBalanceOf d A w).1 = .ok N ∧ (getBalanceOf d A w).2.cache.Peek A = some N) ∧
    (∀ b, w.cache.Peek A = some b →
      (getBalanceOf d A w).1 = .ok b ∧
      performed w (getBalanceOf d A w).2 = [.cacheGet A] ∧
      (getBalanceOf d A w).2.ledger = w.ledger ∧
      (∀ req rest, req.Method = "balanceOf" → req.Params = .string A :: rest →
        (handleJSONRPC d false req w).1 =
          .responded { JSONRPC := "2.0", Result := some [("balance", toString b)],
                       Error := none, ID := req.ID }) ∧
      toString b =
        (if b < 0 then "-" else "") ++ String.mk (Nat.toDigits 10 b.natAbs)) := by
  constructor
  · intro u callData output l hmiss hsize hparse hpack hcall hunpack
    rw [getBalanceOf_miss_ok d A w N u callData output l hmiss hparse hpack hcall hunpack]
    exact ⟨rfl, Cache.Peek_Add _ _ _ hsize⟩
  · intro b hb
    rw [getBalanceOf_hit d A w b hb]
    refine ⟨rfl, by simp [performed], rfl, ?_, ?_⟩
    · intro req rest hm hp
      unfold handleJSONRPC
      simp [hm, hp, JSONValue.assertString, getBalanceOf_hit d A w b hb, sendResult,
        bigIntString]
    · cases b with
      | ofNat m =>
        have h0 : ¬ ((Int.ofNat m) < 0) := not_lt.mpr (Int.ofNat_nonneg m)
        rw [if_neg h0]
        show Nat.repr m = "" ++ String.mk (Nat.toDigits 10 m)
        simp [Nat.repr, List.asString]
      | negSucc m =>
        have h0 : (Int.negSucc m) < 0 := Int.negSucc_lt_zero m
        rw [if_pos h0]
        show "-" ++ Nat.repr (m + 1) = "-" ++ String.mk (Nat.toDigits 10 (m + 1))
        simp [Nat.repr, List.asString]

/-- Witness for C3: the scenario of the specification.  The ledger answers 3
for an address not yet cached; the same address is then served from the cache
and the response carries the string `3`. -/
theorem getBalanceOf_cached_witness :
    ((getBalanceOf (scriptedDeps 3) "0xABC" (initWorld 0)).1 = .ok 3 ∧
      (getBalanceOf (scriptedDeps 3) "0xABC" (initWorld 0)).2.cache.Peek "0xABC" = some 3) ∧
    (handleJSONRPC (scriptedDeps 3) false
        { JSONRPC := "2.0", Method := "balanceOf", Params := [.string "0xABC"], ID := 1 }
        (getBalanceOf (scriptedDeps 3) "0xABC" (initWorld 0)).2).1
      = .responded { JSONRPC := "2.0", Result := some [("balance", "3")], Error := none,
                     ID := 1 } :=
  ⟨(getBalanceOf_cached (scriptedDeps 3) "0xABC" 3 (initWorld 0)).1 () _ [3] 1
      rfl (by decide) rfl rfl rfl rfl,
    ((getBalanceOf_cached (scriptedDeps 3) "0xABC" 3
      (getBalanceOf (scriptedDeps 3) "0xABC" (initWorld 0)).2).2 3 (by decide)).2.2.2.1
      { JSONRPC := "2.0", Method := "balanceOf", Params := [.string "0xABC"], ID := 1 } []
      rfl rfl⟩

/-! ## The dispatcher -/

/-- C2, as stated, fails: for the transfer request of the specification with a
cached balance of 0 the error message is `user does not own an NFT`, not
`insufficient credential balance`. -/
theorem denied_message_counterexample :
    zeroBalanceWorld.cache.Peek "0xABC" = some 0 ∧
    (handleJSONRPC (scriptedDeps 0) false transferRequest zeroBalanceWorld).1
      = sendError 2 "user does not own an NFT" ∧
    (handleJSONRPC (scriptedDeps 0) false transferRequest zeroBalanceWorld).1
      ≠ sendError 2 "insufficient credential balance" := by
  decide

/-- C2, amended.  For every `sendEther` request with a string sender, a string
receiver and a numeric amount whose sender has a cached balance of 0, the
handler writes a response with the id of the request, no result, and the error
message `user does not own an NFT`; its only effect is the cache lookup, so
nothing is signed or broadcast. -/
theorem sendEther_denied_response (d : Deps σ) (req : JSONRPCRequest)
    (sender receiver : String) (f : ℚ) (rest : List JSONValue) (w : World σ)
    (hm : req.Method = "sendEther")
    (hp : req.Params = .string sender :: .string receiver :: .number f :: rest)
    (hc : w.cache.Peek sender = some 0) :
    (handleJSONRPC d false req w).1 =
      .responded { JSONRPC := "2.0", Result := none,
                   Error := some [("message", "user does not own an NFT")], ID := req.ID } ∧
    performed w (handleJSONRPC d false req w).2 = [.cacheGet sender] := by
  have hlen : ¬ (rest.length + 1 + 1 + 1 < 3) := by omega
  unfold handleJSONRPC
  simp [hm, hp, hlen, JSONValue.assertString, JSONValue.assertFloat64, sendEtherWithAuth_eq,
    getBalanceOf_hit d sender w 0 hc, sendError, performed]

/-- Witness for C2 amended: the transfer request of the specification. -/
theorem sendEther_denied_response_witness :
    (handleJSONRPC (scriptedDeps 0) false transferRequest zeroBalanceWorld).1 =
      .responded { JSONRPC := "2.0", Result := none,
                   Error := some [("message", "user does not own an NFT")], ID := 2 } ∧
    performed zeroBalanceWorld
      (handleJSONRPC (scriptedDeps 0) false transferRequest zeroBalanceWorld).2
      = [.cacheGet "0xABC"] :=
  sendEther_denied_response (scriptedDeps 0) transferRequest "0xABC" "0xDEF" 100 []
    zeroBalanceWorld rfl rfl (by decide)

/-- C6, as stated, fails on the text of the message: the request of the
specification with parameters missing is answered `Invalid parameters`, with a
capital letter, not `invalid parameters`. -/
theorem short_params_counterexample :
    (handleJSONRPC (scriptedDeps 3) false shortRequest (initWorld 0)).1
      = sendError 3 "Invalid parameters" ∧
    (handleJSONRPC (scriptedDeps 3) false shortRequest (initWorld 0)).1
      ≠ sendError 3 "invalid parameters" := by
  decide

/-- C6, amended.  For every request whose method is `mintNFT`, `balanceOf` or
`sendEther` and whose parameter list is shorter than 2, 1 and 3 respectively,
the handler answers with the id of the request, no result and the error
message `Invalid parameters`, and leaves the world as it is: no cache lookup or
insert, no ledger call, no signing, no broadcast. -/
theorem short_params_response (d : Deps σ) (req : JSONRPCRequest) (w : World σ)
    (h : (req.Method = "mintNFT" ∧ req.Params.length < 2) ∨
         (req.Method = "balanceOf" ∧ req.Params.length < 1) ∨
         (req.Method = "sendEther" ∧ req.Params.length < 3)) :
    handleJSONRPC d false req w =
      (.responded { JSONRPC := "2.0", Result := none,
                    Error := some [("message", "Invalid parameters")], ID := req.ID }, w) ∧
    performed w (handleJSONRPC d false req w).2 = [] := by
  unfold handleJSONRPC
  rcases h with ⟨hm, hl⟩ | ⟨hm, hl⟩ | ⟨hm, hl⟩ <;>
    simp [hm, hl, sendError, performed]

/-- Witness for C6 amended: the request of the specification with parameters
missing. -/
theorem short_params_response_witness :
    handleJSONRPC (scriptedDeps 3) false shortRequest (initWorld 0) =
      (.responded { JSONRPC := "2.0", Result := none,
                    Error := some [("message", "Invalid parameters")], ID := 3 },
        initWorld 0) ∧
    performed (initWorld 0)
      (handleJSONRPC (scriptedDeps 3) false shortRequest (initWorld 0)).2 = [] :=
  short_params_response (scriptedDeps 3) shortRequest (initWorld 0)
    (Or.inr (Or.inr ⟨rfl, by decide⟩))

/-- C7, the code at the failing inputs.  With enough parameters but one of the
wrong type the type assertion panics: whatever the collaborators and the
world, the handler writes no response.  Shown for `balanceOf` with a numeric
address, `mintNFT` with a numeric URI and `sendEther` with a string amount. -/
theorem wrong_type_panics (d : Deps σ) (w : World σ) :
    handleJSONRPC d false wrongTypeRequest w = (.panicked, w) ∧
    handleJSONRPC d false
      { JSONRPC := "2.0", Method := "mintNFT", Params := [.string "0xABC", .number 1], ID := 8 }
      w = (.panicked, w) ∧
    handleJSONRPC d false
      { JSONRPC := "2.0", Method := "sendEther",
        Params := [.string "0xABC", .string "0xDEF", .string "100"], ID := 9 }
      w = (.panicked, w) := by
  unfold handleJSONRPC wrongTypeRequest
  simp [JSONValue.assertString, JSONValue.assertFloat64]

/-- C8, the code at the failing input.  Two successive successful transfers
broadcast two transactions that both carry the nonce 19, and two successive
successful mints two transactions that both carry the nonce 15. -/
theorem constant_nonce :
    (sendEtherWithAuth (scriptedDeps 3) "0xab" "0xcd" 1 (initWorld 0)).1 = .ok "0x19-1" ∧
    (sendEtherWithAuth (scriptedDeps 3) "0xab" "0xcd" 2
      (sendEtherWithAuth (scriptedDeps 3) "0xab" "0xcd" 1 (initWorld 0)).2).1 = .ok "0x19-2" ∧
    (broadcasts (sendEtherWithAuth (scriptedDeps 3) "0xab" "0xcd" 2
      (sendEtherWithAuth (scriptedDeps 3) "0xab" "0xcd" 1 (initWorld 0)).2).2.trace).map
        (fun stx => stx.tx.nonce) = [19, 19] ∧
    (broadcasts (awardItem (scriptedDeps 3) "0xab" "ipfs://b"
      (awardItem (scriptedDeps 3) "0xab" "ipfs://a" (initWorld 0)).2).2.trace).map
        (fun stx => stx.tx.nonce) = [15, 15] :=
  ⟨rfl, rfl, by decide, by decide⟩

/-! ## Capacity and eviction order of the cache -/

set_option maxRecDepth 1000000 in
theorem fullWorld_cache :
    fullWorld.cache =
      { size := 100, items := ("0x00", 3) :: (List.range 99).map fun i => (addrOf (99 - i), 3) } := by
  decide

set_option maxRecDepth 1000000 in
theorem fullWorld_next_cache :
    (getBalanceOf (scriptedDeps 3) "0x64" fullWorld).2.cache =
      { size := 100,
        items := ("0x64", 3) :: ("0x00", 3) ::
          (List.range 98).map fun i => (addrOf (99 - i), 3) } := by
  decide

theorem keys_moveToFront (items : List (String × Int)) (key : String)
    (h : (items.map Prod.fst).Nodup) :
    (key :: (items.eraseP fun e => e.1 == key).map Prod.fst).Nodup := by
  induction items with
  | nil => simp
  | cons x xs ih =>
    rw [List.map_cons, List.nodup_cons] at h
    by_cases hx : x.1 = key
    · simp only [List.eraseP_cons, hx, beq_self_eq_true, cond_true]
      rw [← hx]
      exact List.nodup_cons.mpr h
    · have hne : (x.1 == key) = false := by simpa using hx
      simp only [List.eraseP_cons, hne, cond_false]
      have ih2 := ih h.2
      rw [List.nodup_cons] at ih2
      rw [List.map_cons, List.nodup_cons, List.mem_cons, List.nodup_cons]
      refine ⟨?_, ?_, ih2.2⟩
      · rintro (hk | hk)
        · exact hx hk.symm
        · exact ih2.1 hk
      · intro hmem
        exact h.1 ((List.eraseP_sublist xs).map Prod.fst |>.subset hmem)

theorem find_none_not_mem (items : List (String × Int)) (key : String)
    (h : (items.find? fun e => e.1 == key) = none) : key ∉ items.map Prod.fst := by
  rw [List.find?_eq_none] at h
  intro hmem
  rw [List.mem_map] at hmem
  obtain ⟨e, he, hk⟩ := hmem
  exact h e he (by simp [hk])

theorem Cache.Get_inv (c : Cache) (key : String) (h : c.Inv) : (c.Get key).2.Inv := by
  unfold Cache.Get
  cases hf : c.items.find? fun e => e.1 == key with
  | none => exact h
  | some e =>
    obtain ⟨hs, hl, hn⟩ := h
    have hp : (e.1 == key) = true := by
      have := List.find?_some hf
      simpa using this
    have hmem : e ∈ c.items := List.mem_of_find?_eq_some hf
    have hex : ∃ a ∈ c.items, (fun e : String × Int => e.1 == key) a = true := ⟨e, hmem, hp⟩
    refine ⟨hs, ?_, ?_⟩
    · have hlen : (c.items.eraseP fun e => e.1 == key).length = c.items.length - 1 :=
        List.length_eraseP_of_mem hmem hp
      simp only [Cache.Len, List.length_cons, hlen]
      have : 0 < c.items.length := List.length_pos_of_mem hmem
      simp only [Cache.Len] at hl
      omega
    · have hk : e.1 = key := by simpa using hp
      have := keys_moveToFront c.items key hn
      simpa [Cache.keys, hk] using this

theorem Cache.Add_inv (c : Cache) (key : String) (v : Int) (h : c.Inv) :
    (c.Add key v).2.Inv := by
  obtain ⟨hs, hl, hn⟩ := h
  unfold Cache.Add
  cases hf : c.items.find? fun e => e.1 == key with
  | some e =>
    have hp : (e.1 == key) = true := by
      have := List.find?_some hf
      simpa using this
    have hmem : e ∈ c.items := List.mem_of_find?_eq_some hf
    refine ⟨hs, ?_, ?_⟩
    · have hlen : (c.items.eraseP fun e => e.1 == key).length = c.items.length - 1 :=
        List.length_eraseP_of_mem hmem hp
      simp only [Cache.Len, List.length_cons, hlen]
      have : 0 < c.items.length := List.length_pos_of_mem hmem
      simp only [Cache.Len] at hl
      omega
    · exact keys_moveToFront c.items key hn
  | none =>
    have hnot := find_none_not_mem c.items key hf
    have hnd : (((key, v) :: c.items).map Prod.fst).Nodup := by
      rw [List.map_cons, List.nodup_cons]
      exact ⟨hnot, hn⟩
    dsimp only
    split
    · refine ⟨hs, ?_, ?_⟩
      · simp only [Cache.Len, List.length_dropLast, List.length_cons] at hl ⊢
        omega
      · exact hnd.sublist ((List.dropLast_sublist _).map Prod.fst)
    · rename_i hlen
      refine ⟨hs, ?_, hnd⟩
      simp only [Cache.Len, List.length_cons] at hl hlen ⊢
      omega

theorem getBalanceOf_cache_cases (d : Deps σ) (A : String) (w : World σ) :
    (getBalanceOf d A w).2.cache = (w.cache.Get A).2 ∨
    ∃ N, w.cache.Peek A = none ∧ (getBalanceOf d A w).2.cache = (w.cache.Add A N).2 := by
  cases hp : w.cache.Peek A with
  | some b =>
    left
    rw [getBalanceOf_hit d A w b hp]
  | none =>
    unfold getBalanceOf
    rw [Cache.Get_miss _ _ hp]
    dsimp only
    repeat' split
    all_goals first
      | (left; rfl)
      | (right; exact ⟨_, rfl, rfl⟩)

theorem getBalanceOf_inv (d : Deps σ) (A : String) (w : World σ) (h : w.cache.Inv) :
    (getBalanceOf d A w).2.cache.Inv := by
  rcases getBalanceOf_cache_cases d A w with hc | ⟨N, _, hc⟩ <;> rw [hc]
  · exact Cache.Get_inv _ _ h
  · exact Cache.Add_inv _ _ _ h

theorem getBalances_inv (d : Deps σ) (addrs : List String) (w : World σ) (h : w.cache.Inv) :
    (getBalances d addrs w).cache.Inv := by
  induction addrs generalizing w with
  | nil => exact h
  | cons a rest ih => exact ih _ (getBalanceOf_inv d a w h)

theorem initCache_inv : initCache.Inv := by
  simp [Cache.Inv, initCache, Cache.Len, Cache.keys]

/-- C4, as stated, fails.  Starting from the empty cache, read the balances of
the hundred addresses `0x00`, ..., `0x63` in order and then `0x00` again (a
hit).  The cache is full and does not hold `0x64`.  A successful fetch for
`0x64` then evicts `0x01`; the least-recently-inserted entry, `0x00`, stays. -/
theorem eviction_counterexample :
    fullWorld.cache.Len = 100 ∧
    fullWorld.cache.Peek "0x64" = none ∧
    fullWorld.cache.Peek "0x01" = some 3 ∧
    (getBalanceOf (scriptedDeps 3) "0x64" fullWorld).2.cache.Len = 100 ∧
    (getBalanceOf (scriptedDeps 3) "0x64" fullWorld).2.cache.Peek "0x64" = some 3 ∧
    (getBalanceOf (scriptedDeps 3) "0x64" fullWorld).2.cache.Peek "0x00" = some 3 ∧
    (getBalanceOf (scriptedDeps 3) "0x64" fullWorld).2.cache.Peek "0x01" = none := by
  rw [fullWorld_next_cache, fullWorld_cache]
  decide

/-- C4, amended.  After every sequence of `getBalanceOf` calls from the empty
cache, the cache holds at most 100 entries and no key twice.  The eviction
list is ordered by use: a hit moves the entry to the front; a successful fetch
for an address not in the cache puts the new entry at the front and, when the
cache is full, evicts exactly one entry, the one at the back, which is the
least recently used (inserted or looked up longest ago), not the least
recently inserted. -/
theorem cache_bounded_lru (d : Deps σ) (addrs : List String) (l0 : σ) :
    let w := getBalances d addrs (initWorld l0)
    w.cache.Len ≤ 100 ∧ w.cache.keys.Nodup ∧
    (∀ A b, w.cache.Peek A = some b →
      (getBalanceOf d A w).2.cache.items =
        (A, b) :: w.cache.items.eraseP fun e => e.1 == A) ∧
    (∀ A N u callData output l, w.cache.Peek A = none →
      d.parseABI = .ok u → d.packBalanceOf (HexToAddress A) = .ok callData →
      d.callContract w.ledger { To := nftAddress, Data := callData } = (.ok output, l) →
      d.unpackBalanceOf output = .ok N →
      (getBalanceOf d A w).2.cache.items =
        if w.cache.Len = 100 then (A, N) :: w.cache.items.dropLast
        else (A, N) :: w.cache.items) := by
  intro w
  have hinv : w.cache.Inv := getBalances_inv d addrs (initWorld l0) initCache_inv
  obtain ⟨hs, hl, hn⟩ := hinv
  refine ⟨hl, hn, ?_, ?_⟩
  · intro A b hp
    rw [getBalanceOf_hit d A w b hp]
    unfold Cache.Peek at hp
    unfold Cache.Get
    cases hf : w.cache.items.find? fun e => e.1 == A with
    | none => rw [hf] at hp; cases hp
    | some e =>
      rw [hf] at hp
      have hk : (e.1 == A) = true := by
        have := List.find?_some hf
        simpa using this
      have hk2 : e.1 = A := by simpa using hk
      have hv : e.2 = b := by simpa using hp
      have he : e = (A, b) := Prod.ext hk2 hv
      simp [he]
  · intro A N u callData output l hmiss hparse hpack hcall hunpack
    rw [getBalanceOf_miss_ok d A w N u callData output l hmiss hparse hpack hcall hunpack]
    unfold Cache.Peek at hmiss
    have hf : (w.cache.items.find? fun e => e.1 == A) = none := by
      cases hf : w.cache.items.find? fun e => e.1 == A with
      | none => rfl
      | some e => rw [hf] at hmiss; cases hmiss
    unfold Cache.Add
    rw [hf]
    simp only [Cache.Len, List.length_cons, hs] at hl ⊢
    by_cases hfull : w.cache.items.length = 100
    · have hne : w.cache.items ≠ [] := by
        intro h0
        rw [h0] at hfull
        simp at hfull
      simp [hfull, List.dropLast_cons_of_ne_nil hne]
    · have : ¬ (w.cache.items.length + 1 > 100) := by omega
      simp [hfull, this]

set_option maxRecDepth 1000000 in
/-- Witness for C4 amended: in the full cache reached by the hundred reads
and the second read of `0x00`, a fetch for `0x64` drops the entry at the back
of the eviction list. -/
theorem cache_bounded_lru_witness :
    (getBalanceOf (scriptedDeps 3) "0x64" fullWorld).2.cache.items =
      if fullWorld.cache.Len = 100 then ("0x64", 3) :: fullWorld.cache.items.dropLast
      else ("0x64", 3) :: fullWorld.cache.items :=
  (cache_bounded_lru (scriptedDeps 3) (hundredAddresses ++ ["0x00"]) 0).2.2.2 "0x64" 3 ()
    (0x70 :: 0xa0 :: 0x82 :: 0x31 :: (List.replicate 12 0 ++ HexToAddress "0x64")) [3]
    (fullWorld.ledger + 1)
    (show fullWorld.cache.Peek "0x64" = none by rw [fullWorld_cache]; decide)
    rfl rfl rfl rfl

/-! ## The key of the cache -/

theorem Cache.Peek_of_not_mem (c : Cache) (key : String) (h : key ∉ c.keys) :
    c.Peek key = none := by
  unfold Cache.Peek
  have : (c.items.find? fun e => e.1 == key) = none := by
    rw [List.find?_eq_none]
    intro e he hk
    apply h
    have hk2 : e.1 = key := by simpa using hk
    rw [← hk2]
    exact List.mem_map_of_mem Prod.fst he
  rw [this]
  rfl

theorem getBalanceOf_ok_front (d : Deps σ) (s : String) (b : Int) (w w1 : World σ)
    (h : getBalanceOf d s w = (.ok b, w1)) (hsize : 0 < w.cache.size) :
    w1.cache.size = w.cache.size ∧ w1.cache.items.head? = some (s, b) := by
  cases hp : w.cache.Peek s with
  | some b1 =>
    rw [getBalanceOf_hit d s w b1 hp] at h
    have hb : b1 = b := by
      have := congrArg Prod.fst h
      simpa using this
    have hw : w1 = _ := (congrArg Prod.snd h).symm
    subst hb
    rw [hw]
    refine ⟨Cache.Get_size _ _, ?_⟩
    unfold Cache.Peek at hp
    unfold Cache.Get
    cases hf : w.cache.items.find? fun e => e.1 == s with
    | none => rw [hf] at hp; cases hp
    | some e =>
      rw [hf] at hp
      have hk : e.1 = s := by
        have := List.find?_some hf
        simpa using this
      have hv : e.2 = b1 := by simpa using hp
      have he : e = (s, b1) := Prod.ext hk hv
      simp [he]
  | none =>
    unfold getBalanceOf at h
    rw [Cache.Get_miss _ _ hp] at h
    dsimp only at h
    repeat' split at h
    all_goals simp [World.log] at h
    obtain ⟨hb, hw⟩ := h
    subst hb
    rw [← hw]
    refine ⟨Cache.Add_size _ _ _, ?_⟩
    dsimp only
    unfold Cache.Peek at hp
    have hf : (w.cache.items.find? fun e => e.1 == s) = none := by
      cases hf : w.cache.items.find? fun e => e.1 == s with
      | none => rfl
      | some e => rw [hf] at hp; cases hp
    unfold Cache.Add
    rw [hf]
    dsimp only
    split
    · rename_i hlen
      cases hitems : w.cache.items with
      | nil => simp [hitems] at hlen; omega
      | cons x xs => simp [List.dropLast]
    · rfl

/-- C10, as stated, fails.  The strings `0xAB` and `0xab` decode to the same
address.  After a successful balance read for `0xAB` the cache holds that
string only; a read for `0xab` misses, calls the ledger again, and leaves two
entries in the cache. -/
theorem address_key_counterexample :
    HexToAddress "0xAB" = HexToAddress "0xab" ∧
    (getBalanceOf (scriptedDeps 3) "0xAB" (initWorld 0)).1 = .ok 3 ∧
    upperCaseWorld.cache.Peek "0xAB" = some 3 ∧
    upperCaseWorld.cache.Peek "0xab" = none ∧
    (performed upperCaseWorld
      (getBalanceOf (scriptedDeps 3) "0xab" upperCaseWorld).2).any Event.isLedgerCall = true ∧
    (getBalanceOf (scriptedDeps 3) "0xab" upperCaseWorld).2.cache.keys = ["0xab", "0xAB"] :=
  ⟨by decide, rfl, by decide, by decide, by decide, by decide⟩

/-- C10, amended.  The balance cache is keyed by the parameter string itself.
After a successful `getBalanceOf s1` that returned `b`, the cache maps the
string `s1` to `b`, and `getBalanceOf s1` is a hit that returns `b` with the
cache lookup as its only effect.  For a string `s2` that is not itself a key
of the cache, whatever address it decodes to, `getBalanceOf s2` is a miss: when
its ledger read succeeds with `N` it returns `N`, has performed that ledger
call, and leaves `s1` and `s2` in two separate entries. -/
theorem cache_keyed_by_string (d : Deps σ) (s1 s2 : String) (b : Int) (w w1 : World σ)
    (h1 : getBalanceOf d s1 w = (.ok b, w1)) (hsize : 2 ≤ w.cache.size) :
    w1.cache.Peek s1 = some b ∧
    (getBalanceOf d s1 w1).1 = .ok b ∧
    performed w1 (getBalanceOf d s1 w1).2 = [.cacheGet s1] ∧
    (s2 ∉ w1.cache.keys →
      w1.cache.Peek s2 = none ∧
      ∀ N u callData output l, d.parseABI = .ok u →
        d.packBalanceOf (HexToAddress s2) = .ok callData →
        d.callContract w1.ledger { To := nftAddress, Data := callData } = (.ok output, l) →
        d.unpackBalanceOf output = .ok N →
        (getBalanceOf d s2 w1).1 = .ok N ∧
        Event.callContract { To := nftAddress, Data := callData } ∈
          performed w1 (getBalanceOf d s2 w1).2 ∧
        (getBalanceOf d s2 w1).2.cache.Peek s1 = some b ∧
        (getBalanceOf d s2 w1).2.cache.Peek s2 = some N) := by
  obtain ⟨hsz, hhead⟩ := getBalanceOf_ok_front d s1 b w w1 h1 (by omega)
  have hpeek : w1.cache.Peek s1 = some b := by
    unfold Cache.Peek
    cases hitems : w1.cache.items with
    | nil => rw [hitems] at hhead; cases hhead
    | cons x xs =>
      rw [hitems] at hhead
      simp only [List.head?_cons, Option.some.injEq] at hhead
      subst hhead
      simp
  refine ⟨hpeek, ?_, ?_, ?_⟩
  · rw [getBalanceOf_hit d s1 w1 b hpeek]
  · rw [getBalanceOf_hit d s1 w1 b hpeek]
    simp [performed]
  · intro hnot
    have hmiss := Cache.Peek_of_not_mem w1.cache s2 hnot
    refine ⟨hmiss, ?_⟩
    intro N u callData output l hparse hpack hcall hunpack
    rw [getBalanceOf_miss_ok d s2 w1 N u callData output l hmiss hparse hpack hcall hunpack]
    refine ⟨rfl, by simp [performed], ?_, Cache.Peek_Add _ _ _ (by omega)⟩
    have hne : s2 ≠ s1 := by
      rintro rfl
      rw [hpeek] at hmiss
      cases hmiss
    have hne2 : (s2 == s1) = false := by simpa using hne
    have hf : (w1.cache.items.find? fun e => e.1 == s2) = none := by
      unfold Cache.Peek at hmiss
      cases hf : w1.cache.items.find? fun e => e.1 == s2 with
      | none => rfl
      | some e => rw [hf] at hmiss; cases hmiss
    dsimp only
    unfold Cache.Add Cache.Peek
    rw [hf]
    cases hitems : w1.cache.items with
    | nil => rw [hitems] at hhead; cases hhead
    | cons x xs =>
      rw [hitems] at hhead
      simp only [List.head?_cons, Option.some.injEq] at hhead
      subst hhead
      dsimp only
      split
      · rename_i hlen
        cases xs with
        | nil => simp at hlen; omega
        | cons y ys => simp [List.dropLast, hne2]
      · simp [hne2]

/-- Witness for C10 amended: `0xAB` is cached, then `0xab` is read. -/
theorem cache_keyed_by_string_witness :
    upperCaseWorld.cache.Peek "0xAB" = some 3 ∧
    (getBalanceOf (scriptedDeps 3) "0xAB" upperCaseWorld).1 = .ok 3 ∧
    performed upperCaseWorld (getBalanceOf (scriptedDeps 3) "0xAB" upperCaseWorld).2
      = [.cacheGet "0xAB"] ∧
    (getBalanceOf (scriptedDeps 3) "0xab" upperCaseWorld).2.cache.Peek "0xAB" = some 3 ∧
    (getBalanceOf (scriptedDeps 3) "0xab" upperCaseWorld).2.cache.Peek "0xab" = some 3 :=
  ⟨(cache_keyed_by_string (scriptedDeps 3) "0xAB" "0xab" 3 (initWorld 0) upperCaseWorld rfl
      (by decide)).1,
    (cache_keyed_by_string (scriptedDeps 3) "0xAB" "0xab" 3 (initWorld 0) upperCaseWorld rfl
      (by decide)).2.1,
    (cache_keyed_by_string (scriptedDeps 3) "0xAB" "0xab" 3 (initWorld 0) upperCaseWorld rfl
      (by decide)).2.2.1,
    (((cache_keyed_by_string (scriptedDeps 3) "0xAB" "0xab" 3 (initWorld 0) upperCaseWorld rfl
      (by decide)).2.2.2 (by decide)).2 3 ()
      (0x70 :: 0xa0 :: 0x82 :: 0x31 :: (List.replicate 12 0 ++ HexToAddress "0xab")) [3] 2
      rfl rfl rfl rfl).2.2⟩

end JsonRpc
